import Mathlib

/-!
Verification of `frozendictx._frozendict`: an immutable mapping type
(`FrozendictBase`) and its hash-caching subclass (`frozendict`).

The backing store of an instance is a CPython `dict`, embedded here as a
`List (K × V)` of entries in insertion order with pairwise distinct keys.
`dict` update semantics: assigning to an existing key replaces its value in
place (keeping the key's position), assigning a new key appends it.
Python hash values are embedded as `Nat`; a value that is not hashable is
modelled by a hash function `hashV : V → Except String Nat` returning
`.error t` where `t` is the value's type name (the payload of CPython's
`TypeError: unhashable type: 't'`).  Python exceptions are `Except`,
`NotImplemented` results are `Option.none`, and object identity of a
returned instance (return `self` vs. build a new object) is tracked with
`CopyResult`.
-/

set_option linter.unusedSectionVars false

namespace Frozendictx

variable {K V : Type} [DecidableEq K] [DecidableEq V]

/-- Lookup in a list of entries: the value of the first entry whose key
equals `k` (a CPython `dict` stores at most one entry per key). -/
def dlookup (k : K) : List (K × V) → Option V
  | [] => none
  | p :: rest => if p.1 = k then some p.2 else dlookup k rest

/-- CPython `d[k] = v` on a dict `d`: if `k` is already a key, the value at
its existing position is replaced; otherwise the entry is appended. -/
def dict_insert (d : List (K × V)) (k : K) (v : V) : List (K × V) :=
  if d.any (fun p => p.1 = k) then
    d.map (fun p => if p.1 = k then (p.1, v) else p)
  else
    d ++ [(k, v)]

/-- CPython `d.update(l)`: insert every entry of `l` into `d`, in order. -/
def dict_update (d : List (K × V)) (l : List (K × V)) : List (K × V) :=
  l.foldl (fun d p => dict_insert d p.1 p.2) d

/-- CPython `dict(l)` for an iterable of pairs `l` (also the entry list
produced by `dict(m)` for a mapping `m`, whose items are traversed in
iteration order). -/
def dict_of (l : List (K × V)) : List (K × V) :=
  dict_update [] l

/-- CPython `d1 == d2` for dicts: equal sizes, and every entry of `d1` is
an entry of `d2` (content comparison, insertion order ignored). -/
def dict_eq (d1 d2 : List (K × V)) : Bool :=
  d1.length == d2.length && d1.all (fun p => decide (dlookup p.1 d2 = some p.2))

/-- A list of entries represents a dict when its keys are pairwise
distinct. -/
def NodupKeys (d : List (K × V)) : Prop :=
  (d.map Prod.fst).Nodup

/-- CPython tuple hash of a pair `(k, v)`, as a function of the element
hashes (modelled with the classic multiply-and-add combiner). -/
def pair_hash (hk hv : Nat) : Nat :=
  hk * 1000003 + hv

/-- CPython `hash(frozenset s)`: a commutative combination (modelled as
XOR) of the element hashes, hence independent of iteration order. -/
def frozenset_hash (hs : List Nat) : Nat :=
  hs.foldr (fun h acc => h ^^^ acc) 0

/-- Hashes of the items of a mapping, in iteration order.  Building
`frozenset(m.items())` hashes each `(key, value)` tuple as it is inserted;
the first unhashable value aborts the construction with its `TypeError`
(dict keys are always hashable, so `hashK` is total). -/
def items_hashes (hashK : K → Nat) (hashV : V → Except String Nat) :
    List (K × V) → Except String (List Nat)
  | [] => .ok []
  | p :: rest =>
    match hashV p.2 with
    | .error t => .error t
    | .ok hv =>
      match items_hashes hashK hashV rest with
      | .error t => .error t
      | .ok hs => .ok (pair_hash (hashK p.1) hv :: hs)

/-- Source `mapping_hash(m)`: returns `hash(frozenset(m.items()))`, or the
`TypeError` raised when some value is unhashable (the error payload is the
offending type name). -/
def mapping_hash (hashK : K → Nat) (hashV : V → Except String Nat)
    (m : List (K × V)) : Except String Nat :=
  (items_hashes hashK hashV m).map frozenset_hash

/-- Source `get_hash_value_or_unhashable_type(mapping)`: the hash value on
success, else the type name sliced out of the `TypeError` message by
`str(e)[18:-1]` (our `TypeError` payload is already the bare type name). -/
def get_hash_value_or_unhashable_type (hashK : K → Nat)
    (hashV : V → Except String Nat) (mapping : List (K × V)) : Nat ⊕ String :=
  match mapping_hash hashK hashV mapping with
  | .ok n => .inl n
  | .error e => .inr e

/-- An instance of `FrozendictBase`: its only slot is `_source`, the
backing dict. -/
structure FrozendictBase (K V : Type) where
  _source : List (K × V)
deriving DecidableEq

/-- Source `FrozendictBase.__new__(cls, iterable = (), **kwargs)`: builds
`_source = dict(iterable, **kwargs)` — the positional source first, then
the named entries on top. -/
def FrozendictBase.new (iterable : List (K × V)) (kwargs : List (K × V)) :
    FrozendictBase K V :=
  ⟨dict_update (dict_of iterable) kwargs⟩

/-- Source `__getnewargs__`: the reconstruction argument is `_source`
alone. -/
def FrozendictBase.getnewargs (self : FrozendictBase K V) : List (K × V) :=
  self._source

/-- Source `FrozendictBase.fromkeys(iterable, value)`:
`cls((k, value) for k in iterable)`. -/
def FrozendictBase.fromkeys (iterable : List K) (value : V) :
    FrozendictBase K V :=
  FrozendictBase.new (iterable.map (fun k => (k, value))) []

/-- Source `__getitem__`: `self._source[item]` — the value, or the
`KeyError` path (modelled as `none`). -/
def FrozendictBase.getitem (self : FrozendictBase K V) (item : K) : Option V :=
  dlookup item self._source

/-- Source `get`: `self._source.get(key, default)` — never raises. -/
def FrozendictBase.get (self : FrozendictBase K V) (key : K) (default : V) : V :=
  (dlookup key self._source).getD default

def FrozendictBase.keysList (self : FrozendictBase K V) : List K :=
  self._source.map Prod.fst

def FrozendictBase.valuesList (self : FrozendictBase K V) : List V :=
  self._source.map Prod.snd

/-- Source `items`: the key-value pairs held by `_source`, in insertion
order. -/
def FrozendictBase.items (self : FrozendictBase K V) : List (K × V) :=
  self._source

def FrozendictBase.len (self : FrozendictBase K V) : Nat :=
  self._source.length

def FrozendictBase.contains (self : FrozendictBase K V) (item : K) : Bool :=
  self._source.any (fun p => p.1 = item)

/-- Identity-tracking result of a copy operation: `same` is the Python
`return self`, `new inst` is a freshly constructed object. -/
inductive CopyResult (α : Type) where
  | same
  | new (inst : α)
deriving DecidableEq

/-- Source `__copy__`: `return self`, for the base type and (by
inheritance) the hash-caching subclass. -/
def FrozendictBase.copyMethod {α : Type} (_self : α) : CopyResult α :=
  CopyResult.same

/-- CPython `deepcopy` of a dict: a new dict built by inserting the
deep-copied key of each entry with its deep-copied value, in order
(`dcK`, `dcV` stand for `deepcopy` on keys and on values). -/
def deepcopy_dict (dcK : K → K) (dcV : V → V) (l : List (K × V)) :
    List (K × V) :=
  dict_of (l.map (fun p => (dcK p.1, dcV p.2)))

/-- Source `FrozendictBase.__deepcopy__`: always
`self.__class__(deepcopy(self._source, memo))` — a new instance, never a
short-circuit (the docstring notes the optimization is left to a
subclass). -/
def FrozendictBase.deepcopyMethod (dcK : K → K) (dcV : V → V)
    (self : FrozendictBase K V) : CopyResult (FrozendictBase K V) :=
  CopyResult.new (FrozendictBase.new (deepcopy_dict dcK dcV self._source) [])

/-- The right operand of a union operator: either a `Mapping` (its items in
iteration order) or not a `Mapping` (the `isinstance` test fails). -/
inductive PyOperand (K V : Type) where
  | mapping (entries : List (K × V))
  | notMapping

/-- The right operand of `__eq__`: a `FrozendictBase` instance (carrying
its `_source`), some other `Mapping` (carrying its items), or an object
that is not a `Mapping` at all. -/
inductive EqOperand (K V : Type) where
  | frozen (source : List (K × V))
  | mapping (entries : List (K × V))
  | notMapping

/-- Source `FrozendictBase.__or__`: for a `Mapping` operand,
`self.__class__(chain(self._source.items(), other.items()))`; otherwise
`NotImplemented` (`none`). -/
def FrozendictBase.orMethod (self : FrozendictBase K V) :
    PyOperand K V → Option (FrozendictBase K V)
  | .mapping entries => some (FrozendictBase.new (self._source ++ entries) [])
  | .notMapping => none

/-- Source `FrozendictBase.__ror__`: for a `Mapping` operand,
`self.__class__(chain(other.items(), self._source.items()))`; otherwise
`NotImplemented`. -/
def FrozendictBase.rorMethod (self : FrozendictBase K V) :
    PyOperand K V → Option (FrozendictBase K V)
  | .mapping entries => some (FrozendictBase.new (entries ++ self._source) [])
  | .notMapping => none

/-- Source `FrozendictBase.__eq__`: against another `FrozendictBase`,
`self._source == other._source` (dict content comparison); against any
other `Mapping`, `other == self._source` (content comparison); otherwise
`NotImplemented`. -/
def FrozendictBase.eqMethod (self : FrozendictBase K V) :
    EqOperand K V → Option Bool
  | .frozen source => some (dict_eq self._source source)
  | .mapping entries => some (dict_eq entries self._source)
  | .notMapping => none

/-- Source `FrozendictBase.__ne__`: the negated comparisons, same
dispatch. -/
def FrozendictBase.neMethod (self : FrozendictBase K V) :
    EqOperand K V → Option Bool
  | .frozen source => some (! dict_eq self._source source)
  | .mapping entries => some (! dict_eq entries self._source)
  | .notMapping => none

/-- Modelled from the spec and the `FrozendictBase` docstring
("Unhashable"): the class defines `__eq__` without `__hash__`, so CPython
sets `FrozendictBase.__hash__ = None` and `hash(instance)` always raises
`TypeError: unhashable type: 'FrozendictBase'`, regardless of the
contents. -/
def FrozendictBase.hashAttempt (_self : FrozendictBase K V) :
    Except String Nat :=
  .error "FrozendictBase"

/-- An instance of `frozendict`: slots `_source` (inherited) and `_hash`.
`_hash` is `None` until the first hash request, then either the computed
integer (`Sum.inl`) or the stored unhashable-type name (`Sum.inr`),
forever. -/
structure frozendict (K V : Type) where
  _source : List (K × V)
  _hash : Option (Nat ⊕ String)
deriving DecidableEq

/-- Source `frozendict.__new__`: builds `_source` exactly as the base
class does and sets `_hash = None` (fresh, uncomputed cache). -/
def frozendict.new (iterable : List (K × V)) (kwargs : List (K × V)) :
    frozendict K V :=
  { _source := (FrozendictBase.new iterable kwargs)._source, _hash := none }

/-- The cache-resolution step shared by `__hash__` and `__deepcopy__`:
`if self._hash is None: self._hash = get_hash_value_or_unhashable_type(self._source)`
— the value `_hash` holds afterwards. -/
def frozendict.resolvedHash (hashK : K → Nat) (hashV : V → Except String Nat)
    (self : frozendict K V) : Nat ⊕ String :=
  match self._hash with
  | none => get_hash_value_or_unhashable_type hashK hashV self._source
  | some c => c

/-- Source `frozendict.__hash__`: if `_hash is None`, store
`get_hash_value_or_unhashable_type(self._source)`; then return the stored
integer, or raise `TypeError` built from the stored type name.  Returns
the updated instance state together with the call's outcome. -/
def frozendict.hashMethod (hashK : K → Nat) (hashV : V → Except String Nat)
    (self : frozendict K V) : frozendict K V × Except String Nat :=
  let c := frozendict.resolvedHash hashK hashV self
  let self' : frozendict K V := { self with _hash := some c }
  match c with
  | .inl n => (self', .ok n)
  | .inr t => (self', .error ("unhashable type: " ++ t))

/-- Source `frozendict.__deepcopy__`: resolve the cache exactly as
`__hash__` does; if it holds an integer, `return self`; otherwise build
`self.__class__(deepcopy(self._source, memo))`.  Returns the updated
state together with the identity-tracked result. -/
def frozendict.deepcopyMethod (hashK : K → Nat) (hashV : V → Except String Nat)
    (dcK : K → K) (dcV : V → V) (self : frozendict K V) :
    frozendict K V × CopyResult (frozendict K V) :=
  let c := frozendict.resolvedHash hashK hashV self
  let self' : frozendict K V := { self with _hash := some c }
  match c with
  | .inl _ => (self', CopyResult.same)
  | .inr _ =>
      (self', CopyResult.new (frozendict.new (deepcopy_dict dcK dcV self._source) []))

/-- Source `items` as inherited by `frozendict`. -/
def frozendict.items (self : frozendict K V) : List (K × V) :=
  self._source

/-- Source `frozendict.fromkeys`: the overload stubs are deleted again, so
the base implementation runs with `cls = frozendict` and goes through
`frozendict.__new__`. -/
def frozendict.fromkeys (iterable : List K) (value : V) : frozendict K V :=
  frozendict.new (iterable.map (fun k => (k, value))) []

/-- Source `frozendict.__or__` (inherited): `self.__class__(...)` with
`cls = frozendict`, so the result goes through `frozendict.__new__`. -/
def frozendict.orMethod (self : frozendict K V) :
    PyOperand K V → Option (frozendict K V)
  | .mapping entries => some (frozendict.new (self._source ++ entries) [])
  | .notMapping => none

/-- Source `frozendict.__ror__` (inherited). -/
def frozendict.rorMethod (self : frozendict K V) :
    PyOperand K V → Option (frozendict K V)
  | .mapping entries => some (frozendict.new (entries ++ self._source) [])
  | .notMapping => none

/-- The operations exposed on a `frozendict` instance after construction
(the base type exposes the subset without `hash`; its methods carry no
mutable state at all). -/
inductive Op (K V : Type) where
  | getitem (k : K)
  | get (k : K) (default : V)
  | contains (k : K)
  | len
  | keys
  | values
  | items
  | iter
  | reversed
  | toStr
  | toRepr
  | sizeof
  | eq (o : EqOperand K V)
  | ne (o : EqOperand K V)
  | or (o : PyOperand K V)
  | ror (o : PyOperand K V)
  | hash
  | copy
  | deepcopy (dcK : K → K) (dcV : V → V)

/-- The state of the receiving instance after one exposed operation: every
read operation leaves it untouched; `hash` and `deepcopy` may populate the
`_hash` cache; `copy`, `eq` and the unions return results without touching
the receiver. -/
def applyOp (hashK : K → Nat) (hashV : V → Except String Nat)
    (self : frozendict K V) : Op K V → frozendict K V
  | .getitem _ => self
  | .get _ _ => self
  | .contains _ => self
  | .len => self
  | .keys => self
  | .values => self
  | .items => self
  | .iter => self
  | .reversed => self
  | .toStr => self
  | .toRepr => self
  | .sizeof => self
  | .eq _ => self
  | .ne _ => self
  | .or _ => self
  | .ror _ => self
  | .hash => (frozendict.hashMethod hashK hashV self).1
  | .copy => self
  | .deepcopy dcK dcV => (frozendict.deepcopyMethod hashK hashV dcK dcV self).1

/-- A tiny universe of Python objects used to instantiate the generic
theorems on concrete inputs: ints and strings are hashable, lists are
not. -/
inductive PyObj where
  | int (n : Nat)
  | str (s : String)
  | list (elems : List Nat)
deriving DecidableEq

/-- Hash behaviour of `PyObj`: the type name of an unhashable value is the
error payload, as in the CPython `TypeError`. -/
def PyObj.hashOrError : PyObj → Except String Nat
  | .int n => .ok n
  | .str s => .ok s.length
  | .list _ => .error "list"

/-- Deep copy of a `PyObj` (rebuilds the structure; on immutable ints and
strings CPython returns the same object, which a pure value cannot
distinguish). -/
def PyObj.deepcopy : PyObj → PyObj
  | .int n => .int n
  | .str s => .str s
  | .list l => .list l

/-- Whether a value hashes successfully under the given hash function. -/
def isHashable (hashV : V → Except String Nat) (v : V) : Bool :=
  match hashV v with
  | .ok _ => true
  | .error _ => false

/- ------------------------------------------------------------------ -/
/- Lemmas about the dict model.                                        -/
/- ------------------------------------------------------------------ -/

theorem dlookup_append (l1 l2 : List (K × V)) (k : K) :
    dlookup k (l1 ++ l2) =
      match dlookup k l1 with
      | some v => some v
      | none => dlookup k l2 := by
  induction l1 with
  | nil => simp [dlookup]
  | cons p rest ih =>
    simp only [List.cons_append, dlookup]
    by_cases hp : p.1 = k
    · simp [hp]
    · simp [hp, ih]

theorem dlookup_eq_none_iff (d : List (K × V)) (k : K) :
    dlookup k d = none ↔ d.any (fun p => decide (p.1 = k)) = false := by
  induction d with
  | nil => simp [dlookup]
  | cons p rest ih =>
    simp only [dlookup, List.any_cons]
    by_cases hp : p.1 = k
    · simp [hp]
    · simp [hp, ih]

theorem dlookup_map_replace (d : List (K × V)) (k0 : K) (v : V) (k : K) :
    dlookup k (d.map (fun p => if p.1 = k0 then (p.1, v) else p)) =
      if k0 = k then (dlookup k d).map (fun _ => v) else dlookup k d := by
  induction d with
  | nil => by_cases h : k0 = k <;> simp [dlookup, h]
  | cons q rest ih =>
    simp only [List.map_cons]
    by_cases hq0 : q.1 = k0
    · by_cases hk : k0 = k
      · subst hk
        simp [dlookup, hq0]
      · have hqk : ¬ q.1 = k := by rw [hq0]; exact hk
        simp [dlookup, hq0, hqk, hk, ih]
    · by_cases hqk : q.1 = k
      · have hk : ¬ k0 = k := fun hc => hq0 (by rw [hc, hqk])
        rw [show (if q.1 = k0 then (q.1, v) else q) = q from if_neg hq0]
        simp [dlookup, hqk, hk]
      · rw [show (if q.1 = k0 then (q.1, v) else q) = q from if_neg hq0]
        simp [dlookup, hqk, ih]

theorem dlookup_insert (d : List (K × V)) (k0 : K) (v : V) (k : K) :
    dlookup k (dict_insert d k0 v) = if k0 = k then some v else dlookup k d := by
  unfold dict_insert
  by_cases hmem : d.any (fun p => decide (p.1 = k0)) = true
  · rw [if_pos hmem, dlookup_map_replace]
    by_cases hk : k0 = k
    · subst hk
      rcases h : dlookup k0 d with _ | w
      · rw [dlookup_eq_none_iff] at h
        rw [h] at hmem
        cases hmem
      · simp
    · simp [hk]
  · rw [if_neg hmem, dlookup_append]
    rw [Bool.not_eq_true] at hmem
    by_cases hk : k0 = k
    · subst hk
      have h0 : dlookup k0 d = none := (dlookup_eq_none_iff d k0).mpr hmem
      simp [h0, dlookup]
    · rcases h : dlookup k d with _ | w
      · simp [dlookup, hk]
      · simp [hk]

/-- Lookup in `dict_update d l` finds the LAST entry of `l` for the key
(`dlookup` over `l.reverse`), falling back to `d`. -/
theorem dlookup_update (d : List (K × V)) (l : List (K × V)) (k : K) :
    dlookup k (dict_update d l) =
      match dlookup k l.reverse with
      | some v => some v
      | none => dlookup k d := by
  induction l generalizing d with
  | nil => simp [dict_update, dlookup]
  | cons p rest ih =>
    simp only [dict_update, List.foldl_cons, List.reverse_cons]
    rw [show List.foldl (fun d q => dict_insert d q.1 q.2) (dict_insert d p.1 p.2) rest
         = dict_update (dict_insert d p.1 p.2) rest from rfl]
    rw [ih, dlookup_append]
    rcases h : dlookup k rest.reverse with _ | v
    · simp only []
      rw [dlookup_insert]
      rcases hp : dlookup k [p] with _ | w
      · simp only [dlookup] at hp
        by_cases hpk : p.1 = k
        · simp [hpk] at hp
        · simp [show ¬ p.1 = k from hpk]
      · simp only [dlookup] at hp
        by_cases hpk : p.1 = k
        · simp only [if_pos hpk] at hp
          simp [hpk, hp]
        · simp [hpk] at hp
    · simp

theorem dlookup_of (l : List (K × V)) (k : K) :
    dlookup k (dict_of l) = dlookup k l.reverse := by
  rw [dict_of, dlookup_update]
  rcases h : dlookup k l.reverse with _ | v <;> simp [dlookup]

/-- Lookup in a constructed instance: the positional entries and the named
entries are one combined sequence; the LAST entry for a key wins, named
entries sitting after (hence overriding) the positional ones. -/
theorem dlookup_new (iterable kwargs : List (K × V)) (k : K) :
    dlookup k (FrozendictBase.new iterable kwargs)._source =
      dlookup k (iterable ++ kwargs).reverse := by
  show dlookup k (dict_update (dict_of iterable) kwargs) = _
  rw [dlookup_update, List.reverse_append, dlookup_append, dlookup_of]

theorem nodupKeys_insert (d : List (K × V)) (k : K) (v : V) (h : NodupKeys d) :
    NodupKeys (dict_insert d k v) := by
  unfold dict_insert
  by_cases hmem : d.any (fun p => decide (p.1 = k)) = true
  · rw [if_pos hmem]
    unfold NodupKeys at *
    have hmap : (d.map (fun p => if p.1 = k then (p.1, v) else p)).map Prod.fst
        = d.map Prod.fst := by
      rw [List.map_map]
      apply List.map_congr_left
      intro p _hp
      by_cases hpk : p.1 = k <;> simp [hpk]
    rw [hmap]
    exact h
  · rw [if_neg hmem]
    unfold NodupKeys at *
    rw [List.map_append, List.nodup_append]
    refine ⟨h, by simp, ?_⟩
    intro a ha hb
    simp only [List.map_cons, List.map_nil, List.mem_singleton] at hb
    subst hb
    rw [Bool.not_eq_true, List.any_eq_false] at hmem
    obtain ⟨p, hp, hpa⟩ := List.mem_map.mp ha
    exact absurd (by simpa using hpa) (by simpa using hmem p hp)

theorem nodupKeys_update (d : List (K × V)) (l : List (K × V))
    (h : NodupKeys d) : NodupKeys (dict_update d l) := by
  induction l generalizing d with
  | nil => exact h
  | cons p rest ih => exact ih _ (nodupKeys_insert d p.1 p.2 h)

theorem nodupKeys_of (l : List (K × V)) : NodupKeys (dict_of l) :=
  nodupKeys_update [] l (by simp [NodupKeys])

/-- Every constructed instance has a key-unique backing store. -/
theorem nodupKeys_new (iterable kwargs : List (K × V)) :
    NodupKeys (FrozendictBase.new iterable kwargs)._source :=
  nodupKeys_update (dict_of iterable) kwargs (nodupKeys_of iterable)

theorem mem_of_dlookup_eq_some {d : List (K × V)} {k : K} {v : V}
    (h : dlookup k d = some v) : (k, v) ∈ d := by
  induction d with
  | nil => cases h
  | cons q rest ih =>
    unfold dlookup at h
    by_cases hq : q.1 = k
    · rw [if_pos hq] at h
      have : q = (k, v) := by
        cases q
        cases h
        cases hq
        rfl
      rw [← this]
      exact List.mem_cons_self q rest
    · rw [if_neg hq] at h
      exact List.mem_cons_of_mem q (ih h)

theorem dlookup_eq_some_of_mem {d : List (K × V)} (h : NodupKeys d)
    {k : K} {v : V} (hm : (k, v) ∈ d) : dlookup k d = some v := by
  induction d with
  | nil => cases hm
  | cons q rest ih =>
    unfold NodupKeys at h
    simp only [List.map_cons, List.nodup_cons] at h
    rcases List.mem_cons.mp hm with h1 | h1
    · rw [← h1]
      simp [dlookup]
    · have hq : ¬ q.1 = k := by
        intro hc
        apply h.1
        rw [hc]
        exact List.mem_map.mpr ⟨(k, v), h1, rfl⟩
      simp only [dlookup, if_neg hq]
      exact ih h.2 h1

/-- Two key-unique entry lists with the same lookup function hold the same
entries, merely in a possibly different order. -/
theorem perm_of_dlookup_eq {d1 d2 : List (K × V)} (h1 : NodupKeys d1)
    (h2 : NodupKeys d2) (h : ∀ k, dlookup k d1 = dlookup k d2) :
    d1.Perm d2 := by
  have n1 : d1.Nodup := List.Nodup.of_map Prod.fst h1
  have n2 : d2.Nodup := List.Nodup.of_map Prod.fst h2
  apply List.perm_of_nodup_nodup_toFinset_eq n1 n2
  ext p
  simp only [List.mem_toFinset]
  constructor
  · intro hp
    exact mem_of_dlookup_eq_some (h p.1 ▸ dlookup_eq_some_of_mem h1 hp)
  · intro hp
    exact mem_of_dlookup_eq_some ((h p.1).symm ▸ dlookup_eq_some_of_mem h2 hp)

/-- The frozenset hash is invariant under reordering of the elements. -/
theorem frozenset_hash_perm {l1 l2 : List Nat} (h : l1.Perm l2) :
    frozenset_hash l1 = frozenset_hash l2 := by
  unfold frozenset_hash
  apply h.foldr_eq'
  intro x _ y _ z
  rw [← Nat.xor_assoc, Nat.xor_comm y x, Nat.xor_assoc]

/-- On a key-unique entry list, lookup does not depend on the scan
direction. -/
theorem dlookup_reverse (d : List (K × V)) (h : NodupKeys d) (k : K) :
    dlookup k d.reverse = dlookup k d := by
  have hrev : NodupKeys d.reverse := by
    unfold NodupKeys at *
    rw [List.map_reverse]
    exact List.nodup_reverse.mpr h
  rcases hd : dlookup k d with _ | v
  · rcases hr : dlookup k d.reverse with _ | w
    · rfl
    · have := dlookup_eq_some_of_mem h
        (List.mem_reverse.mp (mem_of_dlookup_eq_some hr))
      rw [hd] at this
      cases this
  · exact dlookup_eq_some_of_mem hrev
      (List.mem_reverse.mpr (mem_of_dlookup_eq_some hd))

theorem dict_update_disjoint (d l : List (K × V)) (hl : NodupKeys l)
    (hd : ∀ p ∈ l, dlookup p.1 d = none) :
    dict_update d l = d ++ l := by
  induction l generalizing d with
  | nil => simp [dict_update]
  | cons p rest ih =>
    unfold NodupKeys at hl
    simp only [List.map_cons, List.nodup_cons] at hl
    have hins : dict_insert d p.1 p.2 = d ++ [p] := by
      unfold dict_insert
      have : d.any (fun q => decide (q.1 = p.1)) = false :=
        (dlookup_eq_none_iff d p.1).mp (hd p (List.mem_cons_self p rest))
      rw [if_neg (by rw [this]; simp)]
    show dict_update (dict_insert d p.1 p.2) rest = _
    rw [hins, ih (d ++ [p]) hl.2, List.append_assoc]
    · rfl
    · intro q hq
      rw [dlookup_append, hd q (List.mem_cons_of_mem p hq)]
      have hqp : ¬ p.1 = q.1 := by
        intro hc
        exact hl.1 (hc ▸ List.mem_map.mpr ⟨q, hq, rfl⟩)
      simp [dlookup, hqp]

/-- Rebuilding a dict from an already key-unique entry list reproduces the
list exactly. -/
theorem dict_of_eq_self (l : List (K × V)) (h : NodupKeys l) :
    dict_of l = l := by
  rw [dict_of, dict_update_disjoint [] l h (fun p _ => rfl)]
  rfl

/-- CPython dict comparison decides order-independent content equality on
key-unique entry lists. -/
theorem dict_eq_iff (d1 d2 : List (K × V)) (h1 : NodupKeys d1)
    (h2 : NodupKeys d2) :
    dict_eq d1 d2 = true ↔ ∀ k, dlookup k d1 = dlookup k d2 := by
  constructor
  · intro h k
    rw [dict_eq, Bool.and_eq_true] at h
    obtain ⟨hlen, hall⟩ := h
    rw [beq_iff_eq] at hlen
    rw [List.all_eq_true] at hall
    rcases hk : dlookup k d1 with _ | v
    · rcases hk2 : dlookup k d2 with _ | w
      · rfl
      · exfalso
        have hsub : (d1.map Prod.fst).toFinset ⊆ (d2.map Prod.fst).toFinset := by
          intro a ha
          rw [List.mem_toFinset, List.mem_map] at ha
          obtain ⟨p, hp, hpa⟩ := ha
          have := of_decide_eq_true (hall p hp)
          rw [List.mem_toFinset, List.mem_map]
          exact ⟨(p.1, p.2), mem_of_dlookup_eq_some this, hpa⟩
        have hcard1 : (d1.map Prod.fst).toFinset.card = d1.length := by
          rw [List.toFinset_card_of_nodup h1, List.length_map]
        have hcard2 : (d2.map Prod.fst).toFinset.card = d2.length := by
          rw [List.toFinset_card_of_nodup h2, List.length_map]
        have heqf : (d1.map Prod.fst).toFinset = (d2.map Prod.fst).toFinset :=
          Finset.eq_of_subset_of_card_le hsub (by rw [hcard1, hcard2, hlen])
        have hk2mem : k ∈ (d2.map Prod.fst).toFinset := by
          rw [List.mem_toFinset, List.mem_map]
          exact ⟨(k, w), mem_of_dlookup_eq_some hk2, rfl⟩
        rw [← heqf, List.mem_toFinset] at hk2mem
        have : d1.any (fun p => decide (p.1 = k)) = false :=
          (dlookup_eq_none_iff d1 k).mp hk
        rw [List.any_eq_false] at this
        obtain ⟨p, hp, hpk⟩ := List.mem_map.mp hk2mem
        exact absurd (by simpa using hpk) (by simpa using this p hp)
    · exact (of_decide_eq_true (hall (k, v) (mem_of_dlookup_eq_some hk))).symm
  · intro h
    have hperm := perm_of_dlookup_eq h1 h2 h
    rw [dict_eq, Bool.and_eq_true]
    constructor
    · rw [beq_iff_eq]
      exact hperm.length_eq
    · rw [List.all_eq_true]
      intro p hp
      apply decide_eq_true
      rw [← h p.1]
      exact dlookup_eq_some_of_mem h1 hp

/-- A successful item-hash traversal is the pointwise pair hash of the
entries. -/
theorem items_hashes_ok_map (hashK : K → Nat) (hashV : V → Except String Nat)
    {l : List (K × V)} {hs : List Nat}
    (h : items_hashes hashK hashV l = .ok hs) :
    hs = l.map (fun p => pair_hash (hashK p.1)
      (match hashV p.2 with | .ok hv => hv | .error _ => 0)) := by
  induction l generalizing hs with
  | nil =>
    simp only [items_hashes] at h
    cases h
    rfl
  | cons p rest ih =>
    rw [items_hashes] at h
    rcases hv : hashV p.2 with t | hvv
    · rw [hv] at h
      cases h
    · rw [hv] at h
      rcases hrest : items_hashes hashK hashV rest with e | hs2
      · rw [hrest] at h
        cases h
      · rw [hrest] at h
        cases h
        simp only [List.map_cons, hv]
        rw [← ih hrest]

/-- When every value is hashable, the item-hash traversal succeeds. -/
theorem items_hashes_isOk (hashK : K → Nat) (hashV : V → Except String Nat)
    (l : List (K × V)) (h : l.all (fun p => isHashable hashV p.2) = true) :
    ∃ hs, items_hashes hashK hashV l = .ok hs := by
  induction l with
  | nil => exact ⟨[], rfl⟩
  | cons p rest ih =>
    rw [List.all_cons, Bool.and_eq_true] at h
    obtain ⟨hp, hrest⟩ := h
    obtain ⟨hs, hhs⟩ := ih hrest
    unfold isHashable at hp
    rcases hv : hashV p.2 with t | hvv
    · rw [hv] at hp
      cases hp
    · refine ⟨pair_hash (hashK p.1) hvv :: hs, ?_⟩
      rw [items_hashes, hv, hhs]

/- ------------------------------------------------------------------ -/
/- Claim theorems.                                                     -/
/- ------------------------------------------------------------------ -/

/-- C5: Construction merges its inputs with last-writer-wins — the
constructed backing store maps each key to the value of the LAST entry
for that key in the combined sequence, where the named entries sit after
(and therefore override) the positional source; the hash-caching subclass
builds its store identically; the zero-argument form yields the empty
mapping. -/
theorem construction_last_writer_wins (iterable kwargs : List (K × V)) :
    (∀ k, dlookup k (FrozendictBase.new iterable kwargs)._source =
        dlookup k (iterable ++ kwargs).reverse) ∧
    (frozendict.new iterable kwargs)._source =
      (FrozendictBase.new iterable kwargs)._source ∧
    FrozendictBase.new ([] : List (K × V)) [] = ⟨[]⟩ :=
  ⟨dlookup_new iterable kwargs, rfl, rfl⟩

/-- C3: for a mapping-capable operand, `union` returns a new instance
whose entries are the receiver's entries overridden by the operand's, the
reflected union overrides the other way around, and a non-mapping operand
yields the `NotImplemented` marker (`none`) from both operators. -/
theorem union_override_semantics (self other : List (K × V))
    (hself : NodupKeys self) (hother : NodupKeys other) :
    (FrozendictBase.orMethod ⟨self⟩ (.mapping other) =
        some (FrozendictBase.new (self ++ other) [])) ∧
    (∀ k, dlookup k (FrozendictBase.new (self ++ other) [])._source =
        match dlookup k other with
        | some v => some v
        | none => dlookup k self) ∧
    (FrozendictBase.rorMethod ⟨self⟩ (.mapping other) =
        some (FrozendictBase.new (other ++ self) [])) ∧
    (∀ k, dlookup k (FrozendictBase.new (other ++ self) [])._source =
        match dlookup k self with
        | some v => some v
        | none => dlookup k other) ∧
    FrozendictBase.orMethod (⟨self⟩ : FrozendictBase K V) .notMapping = none ∧
    FrozendictBase.rorMethod (⟨self⟩ : FrozendictBase K V) .notMapping = none := by
  refine ⟨rfl, ?_, rfl, ?_, rfl, rfl⟩
  · intro k
    rw [dlookup_new, List.append_nil, List.reverse_append, dlookup_append,
      dlookup_reverse other hother, dlookup_reverse self hself]
  · intro k
    rw [dlookup_new, List.append_nil, List.reverse_append, dlookup_append,
      dlookup_reverse self hself, dlookup_reverse other hother]

/-- Witness for C3 on the concrete case of the spec:
`from({x:1, y:2}) | from({y:9, z:3})` (keys `x, y, z` encoded `1, 2, 3`)
has exactly the entries `{x:1, y:9, z:3}`. -/
theorem union_override_semantics_witness :
    FrozendictBase.new ([(1, 1), (2, 2)] ++ [(2, 9), (3, 3)])
        ([] : List (Nat × Nat)) = ⟨[(1, 1), (2, 9), (3, 3)]⟩ ∧
    dlookup 2 (FrozendictBase.new ([(1, 1), (2, 2)] ++ [(2, 9), (3, 3)])
        ([] : List (Nat × Nat)))._source = some 9 := by
  have h := union_override_semantics [(1, 1), (2, 2)] [(2, 9), (3, 3)]
    (by unfold NodupKeys; decide) (by unfold NodupKeys; decide)
  refine ⟨by rfl, ?_⟩
  rw [h.2.1 2]
  rfl

/-- C6: equality dispatch — against another instance of the immutable
mapping type the backing stores are compared by content, against any
other mapping-capable object the contents are compared directly (both
order-independent), and a non-mapping operand yields the
`NotImplemented` marker rather than `False` or an error. -/
theorem equality_dispatch (self other : List (K × V))
    (hself : NodupKeys self) (hother : NodupKeys other) :
    (FrozendictBase.eqMethod ⟨self⟩ (.frozen other) =
        some (dict_eq self other)) ∧
    (FrozendictBase.eqMethod ⟨self⟩ (.mapping other) =
        some (dict_eq other self)) ∧
    (dict_eq self other = true ↔ ∀ k, dlookup k self = dlookup k other) ∧
    (dict_eq other self = true ↔ ∀ k, dlookup k self = dlookup k other) ∧
    FrozendictBase.eqMethod (⟨self⟩ : FrozendictBase K V) .notMapping = none := by
  refine ⟨rfl, rfl, dict_eq_iff self other hself hother, ?_, rfl⟩
  rw [dict_eq_iff other self hother hself]
  constructor
  · intro h k
    exact (h k).symm
  · intro h k
    exact (h k).symm

/-- Witness for C6 at a concrete instance. -/
theorem equality_dispatch_witness :
    FrozendictBase.eqMethod (⟨[(1, PyObj.int 5)]⟩ : FrozendictBase Nat PyObj)
      (.frozen [(1, PyObj.int 5)]) = some true := by
  have h := equality_dispatch [(1, PyObj.int 5)] [(1, PyObj.int 5)]
    (by unfold NodupKeys; decide) (by unfold NodupKeys; decide)
  rw [h.1]
  decide

/-- C9: round trip — reconstructing an instance through the construction
entry point from its extracted backing entries (`__getnewargs__`) yields
an instance with the very same backing store, hence equal by content
equality; no other state is needed. -/
theorem round_trip_reconstruction (m : FrozendictBase K V)
    (h : NodupKeys m._source) :
    FrozendictBase.new (FrozendictBase.getnewargs m) [] = m ∧
    FrozendictBase.eqMethod (FrozendictBase.new (FrozendictBase.getnewargs m) [])
      (.frozen m._source) = some true := by
  obtain ⟨src⟩ := m
  have hnew : FrozendictBase.new (FrozendictBase.getnewargs ⟨src⟩) [] =
      (⟨src⟩ : FrozendictBase K V) := by
    show (⟨dict_update (dict_of src) []⟩ : FrozendictBase K V) = ⟨src⟩
    have hu : dict_update (dict_of src) [] = dict_of src := rfl
    rw [hu, dict_of_eq_self src h]
  refine ⟨hnew, ?_⟩
  rw [hnew]
  show some (dict_eq src src) = some true
  have hd := (dict_eq_iff src src h h).mpr (fun k => rfl)
  rw [hd]

/-- Witness for C9 at a concrete instance. -/
theorem round_trip_reconstruction_witness :
    FrozendictBase.new (FrozendictBase.getnewargs
      (⟨[(1, PyObj.int 5)]⟩ : FrozendictBase Nat PyObj)) [] =
      ⟨[(1, PyObj.int 5)]⟩ :=
  (round_trip_reconstruction ⟨[(1, PyObj.int 5)]⟩ (by unfold NodupKeys; decide)).1

/-- C1: the hash cache resolves exactly once — the first call on a fresh
instance stores the outcome of the content-hash computation (integer or
unhashable diagnostic) and reports it (`TypeError` carries the stored
type name); thereafter every call returns the same outcome and leaves the
state unchanged without recomputation, witnessed by the stored state being
a fixed point of the hash method under ARBITRARY replacement hash
functions; the instance never switches outcomes. -/
theorem frozendict_hash_cache_resolves_once (hashK : K → Nat)
    (hashV : V → Except String Nat) (self : frozendict K V)
    (hfresh : self._hash = none) :
    (frozendict.hashMethod hashK hashV self).1 =
      { self with
          _hash := some (get_hash_value_or_unhashable_type hashK hashV self._source) } ∧
    (frozendict.hashMethod hashK hashV self).2 =
      (match get_hash_value_or_unhashable_type hashK hashV self._source with
       | .inl n => Except.ok n
       | .inr t => Except.error ("unhashable type: " ++ t)) ∧
    (∀ (hashK2 : K → Nat) (hashV2 : V → Except String Nat),
      frozendict.hashMethod hashK2 hashV2
          (frozendict.hashMethod hashK hashV self).1 =
        frozendict.hashMethod hashK hashV self) := by
  have h1 : frozendict.hashMethod hashK hashV self =
      (⟨self._source,
        some (get_hash_value_or_unhashable_type hashK hashV self._source)⟩,
       match get_hash_value_or_unhashable_type hashK hashV self._source with
       | .inl n => Except.ok n
       | .inr t => Except.error ("unhashable type: " ++ t)) := by
    unfold frozendict.hashMethod frozendict.resolvedHash
    rw [hfresh]
    cases hres : get_hash_value_or_unhashable_type hashK hashV self._source with
    | inl n => rfl
    | inr t => rfl
  refine ⟨by rw [h1], by rw [h1], ?_⟩
  intro hashK2 hashV2
  rw [h1]
  show frozendict.hashMethod hashK2 hashV2 _ = _
  unfold frozendict.hashMethod frozendict.resolvedHash
  cases hres : get_hash_value_or_unhashable_type hashK hashV self._source with
  | inl n => rfl
  | inr t => rfl

/-- Witness for C1: a concrete fresh instance with one hashable entry
hashes to its content hash. -/
theorem frozendict_hash_cache_resolves_once_witness :
    (frozendict.hashMethod (id : Nat → Nat) PyObj.hashOrError
      ⟨[(1, PyObj.int 5)], none⟩).2 = Except.ok (pair_hash 1 5) := by
  have h := frozendict_hash_cache_resolves_once (id : Nat → Nat)
    PyObj.hashOrError ⟨[(1, PyObj.int 5)], none⟩ rfl
  rw [h.2.1]
  rfl

/-- C2: hashing is consistent with equality — two key-unique entry lists
with equal contents (the same lookup function, in particular any
reordering) that both hash successfully yield the same hash value: the
hash is an order-independent function of the set of entries. -/
theorem mapping_hash_consistent_with_equality (hashK : K → Nat)
    (hashV : V → Except String Nat) (d1 d2 : List (K × V))
    (h1 : NodupKeys d1) (h2 : NodupKeys d2)
    (heq : ∀ k, dlookup k d1 = dlookup k d2) :
    (∀ n1 n2, mapping_hash hashK hashV d1 = Except.ok n1 →
       mapping_hash hashK hashV d2 = Except.ok n2 → n1 = n2) ∧
    (∀ n1 n2,
       (frozendict.hashMethod hashK hashV ⟨d1, none⟩).2 = Except.ok n1 →
       (frozendict.hashMethod hashK hashV ⟨d2, none⟩).2 = Except.ok n2 →
       n1 = n2) := by
  have hperm := perm_of_dlookup_eq h1 h2 heq
  have hmain : ∀ n1 n2, mapping_hash hashK hashV d1 = Except.ok n1 →
      mapping_hash hashK hashV d2 = Except.ok n2 → n1 = n2 := by
    intro n1 n2 hh1 hh2
    unfold mapping_hash at hh1 hh2
    rcases hi1 : items_hashes hashK hashV d1 with e1 | hs1
    · rw [hi1] at hh1
      cases hh1
    rcases hi2 : items_hashes hashK hashV d2 with e2 | hs2
    · rw [hi2] at hh2
      cases hh2
    rw [hi1] at hh1
    rw [hi2] at hh2
    simp only [Except.map] at hh1 hh2
    injection hh1 with hn1
    injection hh2 with hn2
    rw [← hn1, ← hn2, items_hashes_ok_map hashK hashV hi1,
      items_hashes_ok_map hashK hashV hi2]
    exact frozenset_hash_perm (hperm.map _)
  have hconv : ∀ (d : List (K × V)) (n : Nat),
      (frozendict.hashMethod hashK hashV ⟨d, none⟩).2 = Except.ok n →
      mapping_hash hashK hashV d = Except.ok n := by
    intro d n h
    unfold frozendict.hashMethod frozendict.resolvedHash
      get_hash_value_or_unhashable_type at h
    rcases hm : mapping_hash hashK hashV d with e | m
    · rw [hm] at h
      simp at h
    · rw [hm] at h
      simp at h
      rw [h]
  exact ⟨hmain, fun n1 n2 hx1 hx2 => hmain n1 n2 (hconv d1 n1 hx1) (hconv d2 n2 hx2)⟩

/-- Witness for C2: the same two entries in both insertion orders hash
identically. -/
theorem mapping_hash_consistent_witness :
    frozenset_hash [pair_hash 1 5, pair_hash 2 7] =
      frozenset_hash [pair_hash 2 7, pair_hash 1 5] := by
  have h := mapping_hash_consistent_with_equality (fun n => n) PyObj.hashOrError
    [(1, PyObj.int 5), (2, PyObj.int 7)] [(2, PyObj.int 7), (1, PyObj.int 5)]
    (by unfold NodupKeys; decide) (by unfold NodupKeys; decide)
    (by
      intro k
      by_cases hk1 : (1 : Nat) = k <;> by_cases hk2 : (2 : Nat) = k
      · exfalso
        omega
      · simp [dlookup, hk1, hk2]
      · simp [dlookup, hk1, hk2]
      · simp [dlookup, hk1, hk2])
  exact h.1 (frozenset_hash [pair_hash 1 5, pair_hash 2 7])
    (frozenset_hash [pair_hash 2 7, pair_hash 1 5]) rfl rfl

/-- C4: deep copy of a hash-caching instance first forces the cache to
resolve; a numeric cache short-circuits to the SAME instance, an
unhashable cache falls through to a new instance built from deep copies
of the entries; the base type's deep copy always builds a new instance
from deep-copied entries; shallow copy of either type returns the same
instance. -/
theorem deepcopy_short_circuit (hashK : K → Nat) (hashV : V → Except String Nat)
    (dcK : K → K) (dcV : V → V) (self : frozendict K V) :
    (frozendict.deepcopyMethod hashK hashV dcK dcV self).1 =
      { self with _hash := some (frozendict.resolvedHash hashK hashV self) } ∧
    (frozendict.deepcopyMethod hashK hashV dcK dcV self).2 =
      (match frozendict.resolvedHash hashK hashV self with
       | .inl _ => CopyResult.same
       | .inr _ => CopyResult.new
           (frozendict.new (deepcopy_dict dcK dcV self._source) [])) ∧
    (∀ b : FrozendictBase K V, FrozendictBase.deepcopyMethod dcK dcV b =
        CopyResult.new (FrozendictBase.new (deepcopy_dict dcK dcV b._source) [])) ∧
    FrozendictBase.copyMethod self = CopyResult.same ∧
    (∀ b : FrozendictBase K V, FrozendictBase.copyMethod b = CopyResult.same) := by
  refine ⟨?_, ?_, fun b => rfl, rfl, fun b => rfl⟩
  · unfold frozendict.deepcopyMethod
    cases hres : frozendict.resolvedHash hashK hashV self <;> rfl
  · unfold frozendict.deepcopyMethod
    cases hres : frozendict.resolvedHash hashK hashV self <;> rfl

/-- C7: on the hash-caching type, both union operators and from_keys
return hash-caching instances constructed through the subclass
constructor, whose cache is the fresh Uncomputed state (`None`) — whatever
the receiver's own cache holds, it is never propagated. -/
theorem derived_instances_fresh_cache (self : frozendict K V)
    (other : List (K × V)) (ks : List K) (value : V)
    (iterable kwargs : List (K × V)) :
    frozendict.orMethod self (.mapping other) =
      some (frozendict.new (self._source ++ other) []) ∧
    frozendict.rorMethod self (.mapping other) =
      some (frozendict.new (other ++ self._source) []) ∧
    frozendict.fromkeys ks value =
      frozendict.new (ks.map (fun k => (k, value))) [] ∧
    (frozendict.new iterable kwargs)._hash = none :=
  ⟨rfl, rfl, rfl, rfl⟩

/-- C8: immutability — no sequence of exposed operations changes the
backing store of an instance, so the result of items() is the same before
and after; operations that combine entries return new instances (their
effect on the receiver is nil). -/
theorem exposed_ops_preserve_items (hashK : K → Nat)
    (hashV : V → Except String Nat) (self : frozendict K V)
    (ops : List (Op K V)) :
    (ops.foldl (applyOp hashK hashV) self)._source = self._source ∧
    frozendict.items (ops.foldl (applyOp hashK hashV) self) =
      frozendict.items self := by
  have hstep : ∀ (s : frozendict K V) (op : Op K V),
      (applyOp hashK hashV s op)._source = s._source := by
    intro s op
    cases op
    case hash =>
      show (frozendict.hashMethod hashK hashV s).1._source = s._source
      unfold frozendict.hashMethod
      cases frozendict.resolvedHash hashK hashV s <;> rfl
    case deepcopy dcK dcV =>
      show (frozendict.deepcopyMethod hashK hashV dcK dcV s).1._source = s._source
      unfold frozendict.deepcopyMethod
      cases frozendict.resolvedHash hashK hashV s <;> rfl
    all_goals rfl
  have hfold : ∀ (l : List (Op K V)) (s : frozendict K V),
      (l.foldl (applyOp hashK hashV) s)._source = s._source := by
    intro l
    induction l with
    | nil => intro s; rfl
    | cons op rest ih =>
      intro s
      rw [List.foldl_cons, ih (applyOp hashK hashV s op), hstep s op]
  exact ⟨hfold ops self, hfold ops self⟩

/-- C10: the base immutable mapping type is never hashable — its hash
attempt fails even when every value is hashable (defining `__eq__` on the
class suppresses the default identity hash) — while the hash-caching
subclass hashes the very same contents successfully. -/
theorem base_class_unhashable (hashK : K → Nat) (hashV : V → Except String Nat)
    (self : FrozendictBase K V)
    (hall : self._source.all (fun p => isHashable hashV p.2) = true) :
    FrozendictBase.hashAttempt self = Except.error "FrozendictBase" ∧
    ∃ n, (frozendict.hashMethod hashK hashV ⟨self._source, none⟩).2 =
      Except.ok n := by
  refine ⟨rfl, ?_⟩
  obtain ⟨hs, hhs⟩ := items_hashes_isOk hashK hashV self._source hall
  refine ⟨frozenset_hash hs, ?_⟩
  have hg : get_hash_value_or_unhashable_type hashK hashV self._source =
      Sum.inl (frozenset_hash hs) := by
    unfold get_hash_value_or_unhashable_type mapping_hash
    rw [hhs]
    rfl
  show (frozendict.hashMethod hashK hashV ⟨self._source, none⟩).2 = _
  unfold frozendict.hashMethod frozendict.resolvedHash
  simp only [hg]

/-- Witness for C10 at a concrete all-hashable instance. -/
theorem base_class_unhashable_witness :
    FrozendictBase.hashAttempt
      (⟨[(1, PyObj.int 5)]⟩ : FrozendictBase Nat PyObj) =
      Except.error "FrozendictBase" :=
  (base_class_unhashable (id : Nat → Nat) PyObj.hashOrError
    ⟨[(1, PyObj.int 5)]⟩ (by decide)).1

end Frozendictx
